import Mathlib

/-!
Shallow embedding of the interactive node-link visualization engine
(the `useForceGraph` hook) of the EC.app repository, together with
theorems checking the specification's claims about it.

Numbers are modelled as elements of a linear ordered field (instantiated
at `ℚ` for executable witnesses, and at `ℝ` for the parts of the engine
that use `Math.sqrt` / `Math.cos` / `Math.sin`).  JavaScript structures:
the id-keyed position object becomes an association list, `Map`s become
lookup functions, and `Math.random()` becomes an explicit stream of draws
passed to the function that consumes them.
-/

namespace ECGraph

/-- Graph node, from the `Node` interface of the hook.  Render-only fields
(`color`, `borderColor`, `label`) are omitted; `type` is accessed through
the index signature in the source and carries the strings `subject`,
`topic` or `question`. -/
structure NodeDatum (α : Type) where
  id : String
  radius : α
  masteryScore : Option α
  type : String
deriving DecidableEq

/-- Per-node kinetic state, from the `NodePosition` interface. -/
structure NodePos (α : Type) where
  x : α
  y : α
  vx : α
  vy : α
deriving DecidableEq

/-- The id-keyed position object `nodePositions.current`, as an association list. -/
def Store (α : Type) := List (String × NodePos α)

instance {α} [DecidableEq α] : DecidableEq (Store α) :=
  inferInstanceAs (DecidableEq (List (String × NodePos α)))

/-- Property lookup `positions[id]` on the position object. -/
def lookupId {α : Type} : Store α → String → Option (NodePos α)
  | [], _ => none
  | (i, p) :: rest, id => if i = id then some p else lookupId rest id

/-- Camera state `transform.current`: scale `k` and translation `(x, y)`. -/
structure Transform (α : Type) where
  k : α
  x : α
  y : α
deriving DecidableEq

/-- Viewport size, from the `dimensions` prop. -/
structure Dims (α : Type) where
  width : α
  height : α

/-- Link `{source, target}`. -/
structure LinkDatum where
  source : String
  target : String
deriving DecidableEq

variable {α : Type} [LinearOrderedField α]

/-- `Math.min` on two numbers (spelled out so that it evaluates by kernel
reduction on `ℚ`). -/
def jsMin (a b : α) : α := if a ≤ b then a else b

/-- `Math.max` on two numbers. -/
def jsMax (a b : α) : α := if a ≤ b then b else a

/-- `Math.abs`. -/
def jsAbs (a : α) : α := if a < 0 then -a else a

theorem jsMin_eq (a b : α) : jsMin a b = min a b := (min_def a b).symm

theorem jsMax_eq (a b : α) : jsMax a b = max a b := (max_def a b).symm

theorem jsAbs_eq (a : α) : jsAbs a = |a| := by
  rw [jsAbs]
  rcases lt_or_le a 0 with h | h
  · rw [if_pos h, abs_of_neg h]
  · rw [if_neg (not_lt.2 h), abs_of_nonneg h]

/-- The scale clamp `Math.max(0.2, Math.min(5, s))` shared by `handleWheel` and `zoom`. -/
def clampScale (s : α) : α := jsMax (1 / 5) (jsMin 5 s)

/-- The wheel handler (`handleWheel`): cursor-anchored zoom applied directly to the
transform.  `px, py` is the raw screen position of the cursor (`getMousePos(e, false)`)
and `deltaY` the wheel delta. -/
def handleWheel (t : Transform α) (px py deltaY : α) : Transform α :=
  let factor := 1 - deltaY * (1 / 1000)
  let newScale := clampScale (t.k * factor)
  let k := newScale / t.k
  { k := newScale, x := px - (px - t.x) * k, y := py - (py - t.y) * k }

/-- The target transform produced by the imperative `zoom` helper
(used by `zoomIn` with factor 1.3 and `zoomOut` with factor 1/1.3):
viewport-center anchored zoom written into `targetTransform.current`. -/
def zoomCmd (t : Transform α) (dims : Dims α) (factor : α) : Transform α :=
  let newScale := clampScale (t.k * factor)
  let k := newScale / t.k
  { k := newScale,
    x := dims.width / 2 - (dims.width / 2 - t.x) * k,
    y := dims.height / 2 - (dims.height / 2 - t.y) * k }

/-- One frame of the camera animation from the render loop: blend the current
transform toward the pending target by `t = 0.08` and snap/clear the target once
within epsilon on translation (0.1) and scale (0.001). -/
def cameraTick (t : Transform α) (tgt : Option (Transform α)) :
    Transform α × Option (Transform α) :=
  match tgt with
  | none => (t, none)
  | some g =>
    let bl : Transform α :=
      { k := t.k * (1 - 2 / 25) + g.k * (2 / 25),
        x := t.x * (1 - 2 / 25) + g.x * (2 / 25),
        y := t.y * (1 - 2 / 25) + g.y * (2 / 25) }
    if jsAbs (bl.x - g.x) < 1 / 10 ∧ jsAbs (bl.y - g.y) < 1 / 10 ∧
        jsAbs (bl.k - g.k) < 1 / 1000 then (g, none)
    else (bl, some g)

/-- `Math.min(...l)` over a nonempty spread list. -/
def listMin : List α → Option α
  | [] => none
  | a :: l => some (l.foldl jsMin a)

/-- `Math.max(...l)` over a nonempty spread list. -/
def listMax : List α → Option α
  | [] => none
  | a :: l => some (l.foldl jsMax a)

/-- One axis of the bounding-box inputs of `resetView`:
`nodesToFrame.map(n => nodePositions.current[n.id]?.f || 0).filter(Boolean)`.
A missing entry defaults to 0 and `filter(Boolean)` then drops every 0. -/
def coordVals (f : NodePos α → α) (nodesToFrame : List (NodeDatum α)) (store : Store α) :
    List α :=
  (nodesToFrame.map (fun n => ((lookupId store n.id).map f).getD 0)).filter (· ≠ 0)

/-- The fit-to-bounds computation of `resetView` (its `layoutMode === 'graph' or
focus-path` branch).  When `ys` is empty, JavaScript evaluates
`height / ((-Infinity - Infinity) + 100)` to `-0`; the model writes that scale
contribution as `0` directly (the translation components are junk in the source
in that corner as well, `NaN`; no claim depends on them there). -/
def fitToBounds (nodesToFrame : List (NodeDatum α)) (store : Store α) (dims : Dims α) :
    Transform α :=
  if nodesToFrame.isEmpty then { k := 1, x := 0, y := 0 } else
  let xs := coordVals (fun p => p.x) nodesToFrame store
  let ys := coordVals (fun p => p.y) nodesToFrame store
  if xs.isEmpty then { k := 1, x := 0, y := 0 } else
  let minX := (listMin xs).getD 0
  let maxX := (listMax xs).getD 0
  let minY := (listMin ys).getD 0
  let maxY := (listMax ys).getD 0
  let graphWidth := maxX - minX
  let graphHeight := maxY - minY
  let scaleX := dims.width / (graphWidth + 100)
  let scaleY := if ys.isEmpty then 0 else dims.height / (graphHeight + 100)
  let newScale := jsMin (jsMin scaleX scaleY) (3 / 2)
  { k := newScale,
    x := dims.width / 2 - (minX + maxX) / 2 * newScale,
    y := dims.height / 2 - (minY + maxY) / 2 * newScale }

/-- The layout mode prop (`'graph' | 'orbit'`). -/
inductive LayoutMode | graph | orbit
deriving DecidableEq

/-- The full `resetView` callback: its fallbacks and mode dispatch around
`fitToBounds`.  `focus` is `weakestPathNode` and `pathIds` the derived
`pathNodeIds` set. -/
def resetView (nodes : List (NodeDatum α)) (store : Store α) (dims : Dims α)
    (mode : LayoutMode) (focus : Option (NodeDatum α)) (pathIds : List String) :
    Transform α :=
  if nodes.isEmpty ∨ dims.width = 0 then { k := 1, x := 0, y := 0 }
  else if mode = LayoutMode.graph ∨ focus.isSome then
    fitToBounds
      (if focus.isSome then nodes.filter (fun n => n.id ∈ pathIds) else nodes)
      store dims
  else { k := 1, x := 0, y := 0 }

/-- The clamped scale lies in the range `[0.2, 5]`. -/
theorem clampScale_mem (s : α) : 1 / 5 ≤ clampScale s ∧ clampScale s ≤ 5 := by
  rw [clampScale, jsMax_eq, jsMin_eq]
  exact ⟨le_max_left _ _, max_le (by norm_num) (min_le_left _ _)⟩

/-- The clamped scale is at least 0.2, in particular nonzero. -/
theorem clampScale_pos (s : α) : 0 < clampScale s :=
  lt_of_lt_of_le (by norm_num) (clampScale_mem s).1

/-- C1: for every transform and every wheel event at screen point `(px, py)`,
the transform produced by the wheel handler leaves the model-space point under
the cursor unchanged: `(p - x') / k' = (p - x) / k` on both axes, exactly in
field arithmetic, including when the new scale is clamped to `[0.2, 5]`. -/
theorem wheelZoom_fixes_cursor_point (t : Transform α) (px py deltaY : α) (hk : t.k ≠ 0) :
    (px - (handleWheel t px py deltaY).x) / (handleWheel t px py deltaY).k
      = (px - t.x) / t.k ∧
    (py - (handleWheel t px py deltaY).y) / (handleWheel t px py deltaY).k
      = (py - t.y) / t.k := by
  have hns : (0 : α) < clampScale (t.k * (1 - deltaY * (1 / 1000))) := clampScale_pos _
  constructor <;>
  · dsimp only [handleWheel]
    rw [div_eq_div_iff hns.ne' hk]
    field_simp

/-- Witness for C1 at a concrete input where the clamp is active:
`t = ⟨4, 1, 2⟩`, cursor `(3, 7)`, `deltaY = -1000` gives factor 2, raw scale 8,
clamped to 5. -/
theorem wheelZoom_fixes_cursor_point_witness :
    ((3 : ℚ) - (handleWheel ⟨4, 1, 2⟩ 3 7 (-1000)).x) / (handleWheel (⟨4, 1, 2⟩ :
      Transform ℚ) 3 7 (-1000)).k = (3 - 1) / 4 ∧
    ((7 : ℚ) - (handleWheel ⟨4, 1, 2⟩ 3 7 (-1000)).y) / (handleWheel (⟨4, 1, 2⟩ :
      Transform ℚ) 3 7 (-1000)).k = (7 - 2) / 4 :=
  wheelZoom_fixes_cursor_point ⟨4, 1, 2⟩ 3 7 (-1000) (by norm_num)

/-- C2 counterexample: at an explicit spread-out layout (x-extent 10000 in an
800×600 viewport) the fit-to-bounds target written by `resetView` has scale
`800/10100 < 0.2`, and one frame of interpolation starting from the in-range
scale `0.2` toward it already leaves the `[0.2, 5]` range. -/
theorem resetView_scale_below_min :
    (resetView ([⟨"a", 10, none, "subject"⟩, ⟨"b", 10, none, "subject"⟩] :
        List (NodeDatum ℚ))
      [("a", ⟨1, 1, 0, 0⟩), ("b", ⟨10001, 2, 0, 0⟩)] ⟨800, 600⟩
      LayoutMode.graph none []).k < 1 / 5 ∧
    (cameraTick (⟨1 / 5, 0, 0⟩ : Transform ℚ)
      (some (resetView [⟨"a", 10, none, "subject"⟩, ⟨"b", 10, none, "subject"⟩]
        [("a", ⟨1, 1, 0, 0⟩), ("b", ⟨10001, 2, 0, 0⟩)] ⟨800, 600⟩
        LayoutMode.graph none []))).1.k < 1 / 5 := by
  have hx : coordVals (fun p => p.x)
      ([⟨"a", 10, none, "subject"⟩, ⟨"b", 10, none, "subject"⟩] : List (NodeDatum ℚ))
      [("a", ⟨1, 1, 0, 0⟩), ("b", ⟨10001, 2, 0, 0⟩)] = [1, 10001] := by decide
  have hy : coordVals (fun p => p.y)
      ([⟨"a", 10, none, "subject"⟩, ⟨"b", 10, none, "subject"⟩] : List (NodeDatum ℚ))
      [("a", ⟨1, 1, 0, 0⟩), ("b", ⟨10001, 2, 0, 0⟩)] = [1, 2] := by decide
  constructor
  · norm_num [resetView, fitToBounds, hx, hy, listMin, listMax, jsMin, jsMax]
  · norm_num [resetView, fitToBounds, hx, hy, listMin, listMax, jsMin, jsMax,
      cameraTick, jsAbs]

/-- C2 amended: the wheel handler and the imperative zoom always clamp the new
scale into `[0.2, 5]`, and the per-frame interpolation keeps the scale in range
whenever both the current scale and the pending target scale are in range; the
fit-to-bounds target of `resetView`, however, is only clamped from above (at
1.5) and can fall below 0.2. -/
theorem cameraScale_range_amended :
    (∀ (t : Transform α) (px py d : α),
      1 / 5 ≤ (handleWheel t px py d).k ∧ (handleWheel t px py d).k ≤ 5) ∧
    (∀ (t : Transform α) (dims : Dims α) (f : α),
      1 / 5 ≤ (zoomCmd t dims f).k ∧ (zoomCmd t dims f).k ≤ 5) ∧
    (∀ t g : Transform α, 1 / 5 ≤ t.k → t.k ≤ 5 → 1 / 5 ≤ g.k → g.k ≤ 5 →
      1 / 5 ≤ (cameraTick t (some g)).1.k ∧ (cameraTick t (some g)).1.k ≤ 5) ∧
    (∀ (nodesToFrame : List (NodeDatum α)) (store : Store α) (dims : Dims α),
      (fitToBounds nodesToFrame store dims).k ≤ 3 / 2) := by
  refine ⟨fun t px py d => clampScale_mem _, fun t dims f => clampScale_mem _,
    fun t g h1 h2 h3 h4 => ?_, fun ns store dims => ?_⟩
  · dsimp only [cameraTick]
    split
    · exact ⟨h3, h4⟩
    · constructor <;> dsimp only <;> nlinarith
  · dsimp only [fitToBounds]
    split
    · norm_num
    · split
      · norm_num
      · rw [jsMin_eq]
        exact min_le_right _ _

/-- Witness for the amended C2: the interpolation conjunct at concrete in-range
transforms. -/
theorem cameraScale_range_amended_witness :
    1 / 5 ≤ (cameraTick (⟨1, 2, 3⟩ : Transform ℚ) (some ⟨5, 0, 0⟩)).1.k ∧
    (cameraTick (⟨1, 2, 3⟩ : Transform ℚ) (some ⟨5, 0, 0⟩)).1.k ≤ 5 :=
  cameraScale_range_amended.2.2.1 ⟨1, 2, 3⟩ ⟨5, 0, 0⟩ (by norm_num) (by norm_num)
    (by norm_num) (by norm_num)

/-- Dropping a node whose looked-up coordinate defaults to 0 (missing entry or
coordinate exactly 0) leaves the bounding-box input list of that axis unchanged. -/
theorem coordVals_cons_zero (f : NodePos α → α) (n : NodeDatum α)
    (rest : List (NodeDatum α)) (store : Store α)
    (h : ((lookupId store n.id).map f).getD 0 = 0) :
    coordVals f (n :: rest) store = coordVals f rest store := by
  simp only [coordVals, List.map_cons, h]
  rw [List.filter_cons_of_neg]
  simp

/-- If every node's defaulted x-coordinate is 0, the x input list is empty. -/
theorem coordVals_eq_nil (f : NodePos α → α) (ns : List (NodeDatum α)) (store : Store α)
    (h : ∀ n ∈ ns, ((lookupId store n.id).map f).getD 0 = 0) :
    coordVals f ns store = [] := by
  simp only [coordVals, List.filter_eq_nil_iff]
  intro a ha
  rcases List.mem_map.1 ha with ⟨n, hn, rfl⟩
  simpa using h n hn

/-- C10: in the fit-to-bounds computation of `resetView`, a node whose stored
coordinate on an axis is exactly 0 or that has no position entry is excluded
from that axis's bounding-box inputs; a node excluded on both axes does not
influence the fitted target at all; and if every x-coordinate defaults to 0 the
pending target falls back to `k = 1, x = 0, y = 0`. -/
theorem fitToBounds_zero_filtered (n : NodeDatum α) (rest ns : List (NodeDatum α))
    (store : Store α) (dims : Dims α) :
    ((((lookupId store n.id).map (fun p => p.x)).getD 0 = 0 →
      coordVals (fun p => p.x) (n :: rest) store = coordVals (fun p => p.x) rest store) ∧
     (((lookupId store n.id).map (fun p => p.y)).getD 0 = 0 →
      coordVals (fun p => p.y) (n :: rest) store = coordVals (fun p => p.y) rest store)) ∧
    (((lookupId store n.id).map (fun p => p.x)).getD 0 = 0 →
     ((lookupId store n.id).map (fun p => p.y)).getD 0 = 0 →
      fitToBounds (n :: rest) store dims = fitToBounds rest store dims) ∧
    ((∀ m ∈ ns, ((lookupId store m.id).map (fun p => p.x)).getD 0 = 0) →
      fitToBounds ns store dims = { k := 1, x := 0, y := 0 }) := by
  refine ⟨⟨coordVals_cons_zero _ n rest store, coordVals_cons_zero _ n rest store⟩,
    fun hx hy => ?_, fun hall => ?_⟩
  · match rest with
    | [] =>
      have hxs : coordVals (fun p => p.x) [n] store = [] :=
        coordVals_eq_nil _ _ _ (by simpa using hx)
      simp [fitToBounds, hxs]
    | m :: rest =>
      simp only [fitToBounds, coordVals_cons_zero _ n (m :: rest) store hx,
        coordVals_cons_zero _ n (m :: rest) store hy, List.isEmpty_cons]
  · have hxs : coordVals (fun p => p.x) ns store = [] := coordVals_eq_nil _ _ _ hall
    match ns with
    | [] => simp [fitToBounds]
    | m :: ns => simp [fitToBounds, hxs]

/-- Witness for C10: node `c` has no position entry, so its x defaults to 0 and
the fit target falls back to `k = 1, x = 0, y = 0`. -/
theorem fitToBounds_zero_filtered_witness :
    fitToBounds [⟨"c", 10, none, "question"⟩]
      ([("a", ⟨3, 4, 0, 0⟩)] : Store ℚ) ⟨800, 600⟩ = { k := 1, x := 0, y := 0 } :=
  (fitToBounds_zero_filtered (⟨"c", 10, none, "question"⟩ : NodeDatum ℚ) []
      [⟨"c", 10, none, "question"⟩] [("a", ⟨3, 4, 0, 0⟩)] ⟨800, 600⟩).2.2
    (by decide)

/-- `getMousePos(e)` with `useTransform = true`: the raw screen point mapped to
model space through the inverse transform. -/
def getMousePosModel (t : Transform α) (px py : α) : α × α :=
  ((px - t.x) / t.k, (py - t.y) / t.k)

/-- The `scaledHitRadius` helper of `findNodeAtPos`: `(radius + 5) / k`. -/
def scaledHitRadius (t : Transform α) (radius : α) : α := (radius + 5) / t.k

/-- The per-node hit test of the `findNodeAtPos` loop body: the node has a stored
position and the model-space point lies strictly inside the scaled hit circle. -/
def nodeHitB (store : Store α) (t : Transform α) (x y : α) (n : NodeDatum α) : Bool :=
  match lookupId store n.id with
  | none => false
  | some p =>
    decide ((x - p.x) * (x - p.x) + (y - p.y) * (y - p.y) < scaledHitRadius t n.radius ^ 2)

/-- `findNodeAtPos`: scan the node list from the last index down and return the
first node whose hit circle contains the model-space point. -/
def findNodeAtPos (nodes : List (NodeDatum α)) (store : Store α) (t : Transform α)
    (x y : α) : Option (NodeDatum α) :=
  nodes.reverse.find? (fun n => nodeHitB store t x y n)

/-- Hit-testing as performed by the mouse handlers: `getMousePos` then
`findNodeAtPos`. -/
def hitTest (nodes : List (NodeDatum α)) (store : Store α) (t : Transform α)
    (px py : α) : Option (NodeDatum α) :=
  findNodeAtPos nodes store t (getMousePosModel t px py).1 (getMousePosModel t px py).2

theorem find?_split {β : Type} {p : β → Bool} {l : List β} {b : β}
    (h : l.find? p = some b) :
    p b = true ∧ ∃ l1 l2, l = l1 ++ b :: l2 ∧ ∀ a ∈ l1, p a = false := by
  induction l with
  | nil => simp at h
  | cons a l ih =>
    by_cases ha : p a = true
    · rw [List.find?_cons_of_pos _ ha] at h
      cases h
      exact ⟨ha, [], l, rfl, by simp⟩
    · rw [List.find?_cons_of_neg _ ha] at h
      obtain ⟨hb, l1, l2, rfl, hall⟩ := ih h
      exact ⟨hb, a :: l1, l2, rfl, by
        intro x hx
        rcases List.mem_cons.1 hx with rfl | hx
        · exact Bool.of_not_eq_true ha
        · exact hall x hx⟩

/-- C9: hit-testing maps the screen point to model space via the inverse
transform and scans nodes from last to first.  (1) A screen point at a stored
node's exact screen-space center is always a hit.  (2) A screen point whose
screen-space distance to every stored node's center is at least that node's
radius plus the 5-pixel margin is never a hit.  (3) The returned node is hit
and every node drawn later (appearing after it in the list) is not hit:
later-drawn wins. -/
theorem hitTest_spec (nodes : List (NodeDatum α)) (store : Store α) (t : Transform α)
    (hk : t.k ≠ 0) :
    (∀ n ∈ nodes, ∀ p, lookupId store n.id = some p → 0 ≤ n.radius →
      hitTest nodes store t (t.k * p.x + t.x) (t.k * p.y + t.y) ≠ none) ∧
    (∀ px py, (∀ n ∈ nodes, ∀ p, lookupId store n.id = some p →
        (n.radius + 5) ^ 2 ≤ (px - (t.k * p.x + t.x)) ^ 2 + (py - (t.k * p.y + t.y)) ^ 2) →
      hitTest nodes store t px py = none) ∧
    (∀ px py n, hitTest nodes store t px py = some n →
      nodeHitB store t (getMousePosModel t px py).1 (getMousePosModel t px py).2 n = true ∧
      ∃ l1 l2, nodes = l1 ++ n :: l2 ∧ ∀ m ∈ l2,
        nodeHitB store t (getMousePosModel t px py).1 (getMousePosModel t px py).2 m
          = false) := by
  have hk2 : (0 : α) < t.k ^ 2 := by positivity
  refine ⟨?_, ?_, ?_⟩
  · intro n hn p hp hr
    have hmx : (getMousePosModel t (t.k * p.x + t.x) (t.k * p.y + t.y)).1 = p.x := by
      dsimp only [getMousePosModel]
      field_simp
    have hmy : (getMousePosModel t (t.k * p.x + t.x) (t.k * p.y + t.y)).2 = p.y := by
      dsimp only [getMousePosModel]
      field_simp
    have hhit : nodeHitB store t p.x p.y n = true := by
      rw [nodeHitB, hp]
      have : (0 : α) < scaledHitRadius t n.radius ^ 2 := by
        have hr5 : n.radius + 5 ≠ 0 := by positivity
        have : scaledHitRadius t n.radius ≠ 0 := div_ne_zero hr5 hk
        positivity
      simpa using this
    rw [hitTest, hmx, hmy, findNodeAtPos]
    intro hnone
    rw [List.find?_eq_none] at hnone
    exact absurd hhit (by simpa using hnone n (List.mem_reverse.2 hn))
  · intro px py hfar
    rw [hitTest, findNodeAtPos, List.find?_eq_none]
    intro n hn
    have hn' : n ∈ nodes := List.mem_reverse.1 hn
    simp only [nodeHitB]
    cases hp : lookupId store n.id with
    | none => simp
    | some p =>
      simp only [decide_eq_true_eq]
      rw [not_lt]
      have hd := hfar n hn' p hp
      have hx : (getMousePosModel t px py).1 - p.x = (px - (t.k * p.x + t.x)) / t.k := by
        dsimp only [getMousePosModel]
        field_simp
        ring
      have hy : (getMousePosModel t px py).2 - p.y = (py - (t.k * p.y + t.y)) / t.k := by
        dsimp only [getMousePosModel]
        field_simp
        ring
      have hsq : ((getMousePosModel t px py).1 - p.x) * ((getMousePosModel t px py).1 - p.x)
          + ((getMousePosModel t px py).2 - p.y) * ((getMousePosModel t px py).2 - p.y)
          = ((px - (t.k * p.x + t.x)) ^ 2 + (py - (t.k * p.y + t.y)) ^ 2) / t.k ^ 2 := by
        rw [hx, hy]
        field_simp
        ring
      rw [hsq, scaledHitRadius, div_pow]
      exact (div_le_div_iff_of_pos_right hk2).2 hd
  · intro px py n hfound
    rw [hitTest, findNodeAtPos] at hfound
    obtain ⟨hhit, l1, l2, hsplit, hfail⟩ := find?_split hfound
    refine ⟨hhit, l2.reverse, l1.reverse, ?_, ?_⟩
    · have := congrArg List.reverse hsplit
      simpa [List.reverse_append] using this
    · intro m hm
      exact hfail m (List.mem_reverse.1 (by simpa using hm))

/-- Witness for C9: the center-hit conjunct at a concrete node, store and
transform. -/
theorem hitTest_spec_witness :
    hitTest ([⟨"a", 10, none, "question"⟩] : List (NodeDatum ℚ))
      [("a", ⟨30, 40, 0, 0⟩)] ⟨2, 3, 4⟩ (2 * 30 + 3) (2 * 40 + 4) ≠ none :=
  (hitTest_spec [⟨"a", 10, none, "question"⟩] [("a", ⟨30, 40, 0, 0⟩)] ⟨2, 3, 4⟩
      (by norm_num)).1 ⟨"a", 10, none, "question"⟩ (by decide) ⟨30, 40, 0, 0⟩
    (by decide) (by norm_num)

/-- The node-set reconcile effect (the `useEffect` over `[nodes, dimensions]`):
rebuild the position object, keeping an existing entry by id (`existing || ...`)
and otherwise creating a fresh entry with a randomized position near the
viewport center and zero velocity.  `rand i` is the i-th `Math.random()` draw;
a fresh entry consumes two consecutive draws.  Node ids are unique per the data
model, matching the object-keyed source. -/
def reconcileGo (old : Store α) (dims : Dims α) (rand : ℕ → α) :
    List (NodeDatum α) → ℕ → Store α
  | [], _ => []
  | n :: rest, i =>
    match lookupId old n.id with
    | some p => (n.id, p) :: reconcileGo old dims rand rest i
    | none =>
      (n.id, { x := dims.width / 2 + (rand i - 1 / 2) * 100,
               y := dims.height / 2 + (rand (i + 1) - 1 / 2) * 100,
               vx := 0, vy := 0 }) :: reconcileGo old dims rand rest (i + 2)

/-- The reconciled `nodePositions.current` after a node-set rebuild. -/
def reconcile (nodes : List (NodeDatum α)) (old : Store α) (dims : Dims α)
    (rand : ℕ → α) : Store α :=
  reconcileGo old dims rand nodes 0

theorem reconcileGo_keys (old : Store α) (dims : Dims α) (rand : ℕ → α)
    (ns : List (NodeDatum α)) (i : ℕ) :
    (reconcileGo old dims rand ns i).map Prod.fst = ns.map (fun n => n.id) := by
  induction ns generalizing i with
  | nil => rfl
  | cons n rest ih =>
    rw [reconcileGo]
    cases lookupId old n.id with
    | none => simpa using ih (i + 2)
    | some p => simpa using ih i

theorem reconcileGo_lookup_keep (old : Store α) (dims : Dims α) (rand : ℕ → α)
    (ns : List (NodeDatum α)) (id : String) (p : NodePos α)
    (hold : lookupId old id = some p) :
    ∀ i, id ∈ ns.map (fun n => n.id) →
      lookupId (reconcileGo old dims rand ns i) id = some p := by
  induction ns with
  | nil => intro i h; simp at h
  | cons n rest ih =>
    intro i hmem
    rw [reconcileGo]
    by_cases hid : n.id = id
    · subst hid
      rw [hold]
      simp [lookupId]
    · have hrest : id ∈ rest.map (fun n => n.id) := by
        rcases List.mem_map.1 hmem with ⟨m, hm, rfl⟩
        rcases List.mem_cons.1 hm with rfl | hm
        · exact absurd rfl hid
        · exact List.mem_map_of_mem _ hm
      cases lookupId old n.id with
      | none => simpa [lookupId, hid] using ih (i + 2) hrest
      | some q => simpa [lookupId, hid] using ih i hrest

theorem reconcileGo_lookup_absent (old : Store α) (dims : Dims α) (rand : ℕ → α)
    (ns : List (NodeDatum α)) (id : String)
    (hmem : id ∉ ns.map (fun n => n.id)) :
    ∀ i, lookupId (reconcileGo old dims rand ns i) id = none := by
  induction ns with
  | nil => intro i; rfl
  | cons n rest ih =>
    intro i
    have hid : n.id ≠ id := fun h => hmem (by simp [← h])
    have hrest : id ∉ rest.map (fun n => n.id) := fun h => hmem (by simp [h])
    rw [reconcileGo]
    cases lookupId old n.id with
    | none => simpa [lookupId, hid] using ih hrest (i + 2)
    | some q => simpa [lookupId, hid] using ih hrest i

theorem reconcileGo_lookup_fresh (old : Store α) (dims : Dims α) (rand : ℕ → α)
    (ns : List (NodeDatum α)) (id : String)
    (hold : lookupId old id = none) :
    ∀ i, id ∈ ns.map (fun n => n.id) →
      ∃ q j, lookupId (reconcileGo old dims rand ns i) id = some q ∧
        q.vx = 0 ∧ q.vy = 0 ∧
        q.x = dims.width / 2 + (rand j - 1 / 2) * 100 ∧
        q.y = dims.height / 2 + (rand (j + 1) - 1 / 2) * 100 := by
  induction ns with
  | nil => intro i h; simp at h
  | cons n rest ih =>
    intro i hmem
    rw [reconcileGo]
    by_cases hid : n.id = id
    · subst hid
      rw [hold]
      exact ⟨⟨dims.width / 2 + (rand i - 1 / 2) * 100,
        dims.height / 2 + (rand (i + 1) - 1 / 2) * 100, 0, 0⟩, i,
        by simp [lookupId], rfl, rfl, rfl, rfl⟩
    · have hrest : id ∈ rest.map (fun n => n.id) := by
        rcases List.mem_map.1 hmem with ⟨m, hm, rfl⟩
        rcases List.mem_cons.1 hm with rfl | hm
        · exact absurd rfl hid
        · exact List.mem_map_of_mem _ hm
      cases lookupId old n.id with
      | none => simpa [lookupId, hid] using ih (i + 2) hrest
      | some q => simpa [lookupId, hid] using ih i hrest

/-- C8: on a node-set rebuild the store is reconciled to exactly one entry per
current node, in node order; an id present before and after keeps its exact
position and velocity; an id absent from the new set is gone; a new id
(including a previously removed and re-added one) gets a fresh entry at the
viewport center plus a randomized offset, with zero velocity. -/
theorem reconcile_spec (nodes : List (NodeDatum α)) (old : Store α) (dims : Dims α)
    (rand : ℕ → α) :
    ((reconcile nodes old dims rand).map Prod.fst = nodes.map (fun n => n.id)) ∧
    (∀ id p, id ∈ nodes.map (fun n => n.id) → lookupId old id = some p →
      lookupId (reconcile nodes old dims rand) id = some p) ∧
    (∀ id, id ∉ nodes.map (fun n => n.id) →
      lookupId (reconcile nodes old dims rand) id = none) ∧
    (∀ id, id ∈ nodes.map (fun n => n.id) → lookupId old id = none →
      ∃ q j, lookupId (reconcile nodes old dims rand) id = some q ∧
        q.vx = 0 ∧ q.vy = 0 ∧
        q.x = dims.width / 2 + (rand j - 1 / 2) * 100 ∧
        q.y = dims.height / 2 + (rand (j + 1) - 1 / 2) * 100) :=
  ⟨reconcileGo_keys old dims rand nodes 0,
   fun id p hmem hold => reconcileGo_lookup_keep old dims rand nodes id p hold 0 hmem,
   fun id hmem => reconcileGo_lookup_absent old dims rand nodes id hmem 0,
   fun id hmem hold => reconcileGo_lookup_fresh old dims rand nodes id hold 0 hmem⟩

/-- Witness for C8: id `a` keeps its exact kinetic state across a rebuild in
which `c` was dropped and `b` is new. -/
theorem reconcile_spec_witness :
    lookupId (reconcile ([⟨"a", 10, none, "question"⟩, ⟨"b", 10, none, "question"⟩] :
        List (NodeDatum ℚ))
      [("a", ⟨3, 4, 5, 6⟩), ("c", ⟨7, 8, 9, 10⟩)] ⟨800, 600⟩ (fun _ => 1 / 2)) "a" =
      some ⟨3, 4, 5, 6⟩ :=
  (reconcile_spec [⟨"a", 10, none, "question"⟩, ⟨"b", 10, none, "question"⟩]
      [("a", ⟨3, 4, 5, 6⟩), ("c", ⟨7, 8, 9, 10⟩)] ⟨800, 600⟩ (fun _ => 1 / 2)).2.1
    "a" ⟨3, 4, 5, 6⟩ (by decide) (by decide)

/-- The focus-path sort key `masteryScore ?? 0`. -/
def masteryKey (n : NodeDatum α) : α := n.masteryScore.getD 0

/-- The comparator `(a, b) => (a.masteryScore ?? 0) - (b.masteryScore ?? 0)` of
the focus-path sort, as the order it induces.  JavaScript sort is stable
(ES2019), so the sort itself is modelled by the stable `List.insertionSort`. -/
def masteryLE (a b : NodeDatum α) : Prop := masteryKey a ≤ masteryKey b

instance : @DecidableRel (NodeDatum α) masteryLE :=
  fun a b => inferInstanceAs (Decidable (masteryKey a ≤ masteryKey b))

instance : IsTotal (NodeDatum α) masteryLE :=
  ⟨fun a b => le_total (masteryKey a) (masteryKey b)⟩

instance : IsTrans (NodeDatum α) masteryLE :=
  ⟨fun _ _ _ => le_trans⟩

/-- `childrenMap` lookup: children in link order for a known node id, nothing
for an unknown id (`cMap.get(...)` is undefined there and the source appends
nothing). -/
def childrenOf (nodes : List (NodeDatum α)) (links : List LinkDatum) (id : String) :
    List String :=
  if nodes.any (fun n => n.id = id) then
    (links.filter (fun l => l.source = id)).map (fun l => l.target)
  else []

/-- The breadth-first descendant collection of the `weakestPathNodes` memo
(`while (queue.length > 0) { shift; add; push children }`).  The loop is run
with explicit fuel; on the forest-shaped link sets the app builds, each node is
enqueued at most once per incoming link, so `links.length + 1` dequeues drain
the queue exactly as the source does. -/
def collectDesc (children : String → List String) :
    ℕ → List String → List String → List String
  | 0, seen, _ => seen
  | _ + 1, seen, [] => seen
  | fuel + 1, seen, q :: qs => collectDesc children fuel (seen ++ [q]) (qs ++ children q)

/-- `allDescendants` of the focus node. -/
def allDescendants (nodes : List (NodeDatum α)) (links : List LinkDatum)
    (focus : NodeDatum α) : List String :=
  collectDesc (childrenOf nodes links) (links.length + 1) [] [focus.id]

/-- `questionsOnPath`: the question-type nodes among the collected descendants,
in input order. -/
def questionsOnPath (nodes : List (NodeDatum α)) (links : List LinkDatum)
    (focus : NodeDatum α) : List (NodeDatum α) :=
  nodes.filter (fun n => n.type = "question" ∧ n.id ∈ allDescendants nodes links focus)

/-- The derived focus-path state of the `weakestPathNodes` memo. -/
structure WeakestPath (α : Type) where
  pathNodes : List (NodeDatum α)
  pathLinks : List LinkDatum
  pathIds : List String

/-- The `weakestPathNodes` memo body: collect descendants, keep question leaves,
sort ascending by `masteryScore ?? 0` (stable), link consecutive leaves, and
collect the highlighted id set. -/
def weakestPathCalc (nodes : List (NodeDatum α)) (links : List LinkDatum)
    (focus : NodeDatum α) : WeakestPath α :=
  let sortedQuestions := (questionsOnPath nodes links focus).insertionSort masteryLE
  let pathLinks := (sortedQuestions.zip sortedQuestions.tail).map
    (fun ab => LinkDatum.mk ab.1.id ab.2.id)
  let pathIds := sortedQuestions.map (fun n => n.id) ++ [focus.id] ++
    (if focus.type = "subject" then childrenOf nodes links focus.id else [])
  ⟨sortedQuestions, pathLinks, pathIds⟩

theorem filter_orderedInsert_key_eq (w : α) (a : NodeDatum α) (l : List (NodeDatum α))
    (ha : masteryKey a = w) :
    (List.orderedInsert masteryLE a l).filter (fun b => masteryKey b = w) =
      a :: l.filter (fun b => masteryKey b = w) := by
  induction l with
  | nil => simp [ha]
  | cons b t ih =>
    rw [List.orderedInsert]
    by_cases hab : masteryLE a b
    · rw [if_pos hab, List.filter_cons_of_pos (by simpa using ha)]
    · have hbw : ¬ masteryKey b = w := by
        intro hb
        refine hab ?_
        show masteryKey a ≤ masteryKey b
        rw [ha, hb]
      rw [if_neg hab, List.filter_cons_of_neg (by simpa using hbw), ih,
        List.filter_cons_of_neg (by simpa using hbw)]

theorem filter_orderedInsert_key_ne (w : α) (a : NodeDatum α) (l : List (NodeDatum α))
    (ha : ¬ masteryKey a = w) :
    (List.orderedInsert masteryLE a l).filter (fun b => masteryKey b = w) =
      l.filter (fun b => masteryKey b = w) := by
  induction l with
  | nil => simp [ha]
  | cons b t ih =>
    rw [List.orderedInsert]
    by_cases hab : masteryLE a b
    · rw [if_pos hab, List.filter_cons_of_neg (by simpa using ha)]
    · rw [if_neg hab]
      by_cases hbw : masteryKey b = w
      · rw [List.filter_cons_of_pos (by simpa using hbw), ih,
          List.filter_cons_of_pos (by simpa using hbw)]
      · rw [List.filter_cons_of_neg (by simpa using hbw), ih,
          List.filter_cons_of_neg (by simpa using hbw)]

/-- Stability of the modelled sort: nodes of any fixed key keep their input
order. -/
theorem insertionSort_filter_key (w : α) :
    ∀ l : List (NodeDatum α),
      (l.insertionSort masteryLE).filter (fun b => masteryKey b = w) =
        l.filter (fun b => masteryKey b = w) := by
  intro l
  induction l with
  | nil => rfl
  | cons a t ih =>
    rw [List.insertionSort]
    by_cases ha : masteryKey a = w
    · rw [filter_orderedInsert_key_eq w a _ ha, ih,
        List.filter_cons_of_pos (by simpa using ha)]
    · rw [filter_orderedInsert_key_ne w a _ ha, ih,
        List.filter_cons_of_neg (by simpa using ha)]

theorem zip_tail_map_getElem {β γ : Type} (f : β × β → γ) (s : List β) :
    ∀ i a b, s[i]? = some a → s[i + 1]? = some b →
      ((s.zip s.tail).map f)[i]? = some (f (a, b)) := by
  induction s with
  | nil => intro i a b h; simp at h
  | cons x rest ih =>
    intro i a b hx hy
    match rest, i with
    | [], 0 => simp at hy
    | [], n + 1 => simp at hy
    | y :: rest2, 0 =>
      simp only [List.getElem?_cons_zero, Option.some.injEq] at hx
      simp only [List.getElem?_cons_succ, List.getElem?_cons_zero,
        Option.some.injEq] at hy
      subst hx
      subst hy
      simp [List.zip_cons_cons]
    | y :: rest2, n + 1 =>
      rw [List.getElem?_cons_succ] at hx hy
      simpa [List.zip_cons_cons] using ih n a b hx hy

/-- C4: for every chosen focus node, the derived path nodes are a permutation of
the question-type descendant leaves, sorted ascending by `masteryScore ?? 0`
with equal keys kept in input order, and the synthetic path links join
consecutive leaves of that order; concretely, leaves of weights 80, 20, 50 are
visited in the order 20, 50, 80. -/
theorem weakestPath_spec :
    (∀ (nodes : List (NodeDatum ℚ)) (links : List LinkDatum) (focus : NodeDatum ℚ),
      (weakestPathCalc nodes links focus).pathNodes.Perm
        (questionsOnPath nodes links focus) ∧
      (weakestPathCalc nodes links focus).pathNodes.Sorted masteryLE ∧
      (∀ w : ℚ, (weakestPathCalc nodes links focus).pathNodes.filter
          (fun b => masteryKey b = w) =
        (questionsOnPath nodes links focus).filter (fun b => masteryKey b = w)) ∧
      (weakestPathCalc nodes links focus).pathLinks.length =
        (weakestPathCalc nodes links focus).pathNodes.length - 1 ∧
      (∀ i a b, (weakestPathCalc nodes links focus).pathNodes[i]? = some a →
        (weakestPathCalc nodes links focus).pathNodes[i + 1]? = some b →
        (weakestPathCalc nodes links focus).pathLinks[i]? = some ⟨a.id, b.id⟩)) ∧
    ((weakestPathCalc
        ([⟨"g", 20, none, "subject"⟩, ⟨"q1", 10, some 80, "question"⟩,
          ⟨"q2", 10, some 20, "question"⟩, ⟨"q3", 10, some 50, "question"⟩] :
          List (NodeDatum ℚ))
        [⟨"g", "q1"⟩, ⟨"g", "q2"⟩, ⟨"g", "q3"⟩]
        ⟨"g", 20, none, "subject"⟩).pathNodes.map masteryKey = [20, 50, 80]) := by
  refine ⟨fun nodes links focus => ⟨List.perm_insertionSort _ _,
    List.sorted_insertionSort _ _, fun w => insertionSort_filter_key w _, ?_, ?_⟩, ?_⟩
  · simp only [weakestPathCalc, List.length_map, List.length_zip, List.length_tail]
    omega
  · intro i a b ha hb
    exact zip_tail_map_getElem _ _ i a b ha hb
  · decide

/-- Witness for C4: the first synthetic link of the concrete focus path joins
the weight-20 leaf to the weight-50 leaf. -/
theorem weakestPath_spec_witness :
    (weakestPathCalc
        ([⟨"g", 20, none, "subject"⟩, ⟨"q1", 10, some 80, "question"⟩,
          ⟨"q2", 10, some 20, "question"⟩, ⟨"q3", 10, some 50, "question"⟩] :
          List (NodeDatum ℚ))
        [⟨"g", "q1"⟩, ⟨"g", "q2"⟩, ⟨"g", "q3"⟩]
        ⟨"g", 20, none, "subject"⟩).pathLinks[0]? =
      some ⟨"q2", "q3"⟩ :=
  (weakestPath_spec.1
      [⟨"g", 20, none, "subject"⟩, ⟨"q1", 10, some 80, "question"⟩,
       ⟨"q2", 10, some 20, "question"⟩, ⟨"q3", 10, some 50, "question"⟩]
      [⟨"g", "q1"⟩, ⟨"g", "q2"⟩, ⟨"g", "q3"⟩]
      ⟨"g", 20, none, "subject"⟩).2.2.2.2 0 ⟨"q2", 10, some 20, "question"⟩
    ⟨"q3", 10, some 50, "question"⟩ (by decide) (by decide)

/-- Write-through of `positions[id].field = v` mutations: replace the entry of
`id`, leave every other entry alone. -/
def updateStore (s : Store α) (id : String) (p : NodePos α) : Store α :=
  s.map (fun e => if e.1 = id then (id, p) else e)

/-- Tuned simulation parameters from the top of the hook file. -/
noncomputable def REPULSION_STRENGTH : ℝ := -150

noncomputable def LINK_STRENGTH : ℝ := 3 / 50

noncomputable def LINK_DISTANCE : ℝ := 70

noncomputable def CENTER_STRENGTH : ℝ := 1 / 100

noncomputable def DAMPING : ℝ := 9 / 10

noncomputable def ENERGY_THRESHOLD : ℝ := 1 / 200

/-- The distance guard `Math.sqrt(dx*dx + dy*dy) || 1` used by both the
repulsion and the spring force passes: a distance of exactly zero (coincident
points) is replaced by 1. -/
noncomputable def clampDist (dx dy : ℝ) : ℝ :=
  if Real.sqrt (dx * dx + dy * dy) = 0 then 1 else Real.sqrt (dx * dx + dy * dy)

/-- Center pull plus pairwise repulsion applied to one node of the first
`forEach` of `runGraphSimulation` (positions are only read in this pass, so
the evolving store holds the same positions the source reads). -/
noncomputable def repelStep (nodes : List (NodeDatum ℝ)) (dims : Dims ℝ)
    (store : Store ℝ) (a : NodeDatum ℝ) : Store ℝ :=
  match lookupId store a.id with
  | none => store
  | some pa =>
    let v0 := (pa.vx + (dims.width / 2 - pa.x) * CENTER_STRENGTH,
               pa.vy + (dims.height / 2 - pa.y) * CENTER_STRENGTH)
    let v := nodes.foldl (fun v b =>
      if a.id = b.id then v else
      match lookupId store b.id with
      | none => v
      | some pb =>
        let dx := pb.x - pa.x
        let dy := pb.y - pa.y
        let distance := clampDist dx dy
        let force := REPULSION_STRENGTH / (distance * distance)
        (v.1 + dx / distance * force, v.2 + dy / distance * force)) v0
    updateStore store a.id { pa with vx := v.1, vy := v.2 }

/-- The repulsion pass over all nodes. -/
noncomputable def repelPass (nodes : List (NodeDatum ℝ)) (dims : Dims ℝ)
    (store : Store ℝ) : Store ℝ :=
  nodes.foldl (repelStep nodes dims) store

/-- One link of the spring pass: pull both endpoints toward rest length 70.
The target is re-read after the source update so that a self-link cancels
exactly as the shared-object mutation does in the source. -/
noncomputable def springStep (store : Store ℝ) (l : LinkDatum) : Store ℝ :=
  match lookupId store l.source, lookupId store l.target with
  | some s, some t =>
    let dx := t.x - s.x
    let dy := t.y - s.y
    let distance := clampDist dx dy
    let force := (distance - LINK_DISTANCE) * LINK_STRENGTH
    let fx := dx / distance * force
    let fy := dy / distance * force
    let store1 := updateStore store l.source { s with vx := s.vx + fx, vy := s.vy + fy }
    match lookupId store1 l.target with
    | some t1 => updateStore store1 l.target { t1 with vx := t1.vx - fx, vy := t1.vy - fy }
    | none => store1
  | _, _ => store

/-- One node of the damping/integration pass, accumulating the kinetic energy
`vx² + vy²`; the dragged node (and ids without an entry) are skipped. -/
noncomputable def integrateStep (dragged : Option String) :
    Store ℝ × ℝ → NodeDatum ℝ → Store ℝ × ℝ
  | (store, energy), n =>
    match lookupId store n.id with
    | none => (store, energy)
    | some p =>
      if dragged = some n.id then (store, energy) else
      let vx := p.vx * DAMPING
      let vy := p.vy * DAMPING
      (updateStore store n.id { x := p.x + vx, y := p.y + vy, vx := vx, vy := vy },
       energy + (vx * vx + vy * vy))

/-- The three passes of one force tick, returning the new store and the tick's
total kinetic energy. -/
noncomputable def simPipeline (nodes : List (NodeDatum ℝ)) (links : List LinkDatum)
    (dims : Dims ℝ) (dragged : Option String) (store : Store ℝ) : Store ℝ × ℝ :=
  (nodes.foldl (integrateStep dragged)
    ((links.foldl springStep (repelPass nodes dims store)), 0))

/-- Mutable state of the force engine: the position store plus the
`isStable` settle flag. -/
structure SimState where
  store : Store ℝ
  isStable : Bool

/-- `runGraphSimulation`: return untouched when settled and not dragging;
otherwise run the three passes and raise the settle flag when the tick's
energy1 falls under the threshold with no drag active. -/
noncomputable def runGraphSimulation (nodes : List (NodeDatum ℝ)) (links : List LinkDatum)
    (dims : Dims ℝ) (dragged : Option String) (s : SimState) : SimState :=
  if s.isStable = true ∧ dragged = none then s
  else
    let res := simPipeline nodes links dims dragged s.store
    { store := res.1,
      isStable := if dragged = none ∧ res.2 < ENERGY_THRESHOLD then true else s.isStable }

/-- C6: with no drag active, a tick whose computed aggregate kinetic energy is
below the settle threshold marks the engine settled, and every tick taken in
the settled state with no drag returns the state unchanged: no position or
velocity moves until perturbed. -/
theorem forceSim_settles_and_halts (nodes : List (NodeDatum ℝ)) (links : List LinkDatum)
    (dims : Dims ℝ) (s : SimState) :
    (s.isStable = true → runGraphSimulation nodes links dims none s = s) ∧
    ((simPipeline nodes links dims none s.store).2 < ENERGY_THRESHOLD →
      (runGraphSimulation nodes links dims none s).isStable = true) := by
  constructor
  · intro hst
    rw [runGraphSimulation, if_pos ⟨hst, rfl⟩]
  · intro he
    rw [runGraphSimulation]
    by_cases hst : s.isStable = true ∧ (none : Option String) = none
    · rw [if_pos hst]
      exact hst.1
    · rw [if_neg hst]
      simp [he]

/-- Witness for C6: a settled state is returned unchanged by the next tick. -/
theorem forceSim_settles_and_halts_witness :
    runGraphSimulation [⟨"a", 10, none, "question"⟩] [] ⟨800, 600⟩ none
        ⟨[("a", ⟨1, 2, 3, 4⟩)], true⟩ = ⟨[("a", ⟨1, 2, 3, 4⟩)], true⟩ :=
  (forceSim_settles_and_halts [⟨"a", 10, none, "question"⟩] [] ⟨800, 600⟩
      ⟨[("a", ⟨1, 2, 3, 4⟩)], true⟩).1 rfl

/-- C7: the distance value fed to the repulsion and spring formulas is always
strictly positive — never a zero divisor — and equals exactly 1 when the two
points coincide (distance exactly zero). -/
theorem clampDist_pos_and_one (dx dy : ℝ) :
    0 < clampDist dx dy ∧ (dx = 0 ∧ dy = 0 → clampDist dx dy = 1) := by
  constructor
  · rw [clampDist]
    by_cases h : Real.sqrt (dx * dx + dy * dy) = 0
    · rw [if_pos h]
      norm_num
    · rw [if_neg h]
      exact lt_of_le_of_ne (Real.sqrt_nonneg _) (Ne.symm h)
  · rintro ⟨rfl, rfl⟩
    rw [clampDist]
    simp

/-- Witness for C7: coincident points use distance 1. -/
theorem clampDist_pos_and_one_witness : clampDist 0 0 = 1 :=
  (clampDist_pos_and_one 0 0).2 ⟨rfl, rfl⟩

/-- `s.startsWith(p)`, as a character-list prefix test (so that it evaluates by
kernel reduction on literals). -/
def strStartsWith (s p : String) : Bool := p.toList.isPrefixOf s.toList

/-- `parentMap` built by `pMap.set(link.target, link.source)` over the links;
a later link for the same target overwrites an earlier one. -/
def parentMapOf (links : List LinkDatum) : String → Option String :=
  links.foldl (fun m l => fun id => if id = l.target then some l.source else m id)
    (fun _ => none)

/-- The bounded ancestor walk `getRootSubjectId`: up to 5 steps toward the root,
returning the first id that starts with `subject-`. -/
def rootSubjectGo (parent : String → Option String) : ℕ → String → Option String
  | 0, _ => none
  | fuel + 1, current =>
    if strStartsWith current "subject-" then some current
    else
      match parent current with
      | none => none
      | some p => rootSubjectGo parent fuel p

/-- `getRootSubjectId(nodeId)` with its 5-iteration loop. -/
def getRootSubjectId (parent : String → Option String) (nodeId : String) :
    Option String :=
  rootSubjectGo parent 5 nodeId

/-- Position of the first subject with the given id, mirroring the
`subjects.forEach((subj, i) => ...)` index. -/
def subjectSlotGo : List (NodeDatum α) → String → ℕ → Option ℕ
  | [], _, _ => none
  | n :: rest, id, i => if n.id = id then some i else subjectSlotGo rest id (i + 1)

/-- The `subjectAngles` map: subject `i` of `k` sits at angle `i / k · 2π`. -/
noncomputable def subjectAngle (nodes : List (NodeDatum ℝ)) (id : String) : Option ℝ :=
  let subjects := nodes.filter (fun n => n.type = "subject")
  (subjectSlotGo subjects id 0).map
    (fun i => (i : ℝ) / (subjects.length : ℝ) * (2 * Real.pi))

/-- `acc * 10 + digit` accumulation of a digit run. -/
def digitsToNat (l : List Char) : ℕ :=
  l.foldl (fun acc c => acc * 10 + (c.toNat - 48)) 0

/-- `parseInt(node.id.replace(/[^0-9]/g, ''), 10) || 1`: the id's digits parsed
as a number, with `NaN` (no digits at all) and `0` both replaced by 1 by the
`|| 1` fallback. -/
def parseIdNum (id : String) : ℕ :=
  let digits := id.toList.filter Char.isDigit
  if digits.isEmpty then 1
  else if digitsToNat digits = 0 then 1 else digitsToNat digits

/-- The deterministic part of a node's orbit target: viewport center plus
`(cos angle · radiusX · radiusFactor, sin angle · radiusY · radiusFactor)` with
`radiusX/Y = (dimension / 2) * 0.9`. -/
noncomputable def orbitTarget (dims : Dims ℝ) (angle radiusFactor : ℝ) : ℝ × ℝ :=
  (dims.width / 2 + Real.cos angle * ((dims.width / 2) * (9 / 10)) * radiusFactor,
   dims.height / 2 + Real.sin angle * ((dims.height / 2) * (9 / 10)) * radiusFactor)

/-- The angular slot of a node before jitter: its root subject's sector angle
(`?? 0` when the map misses), or the id-digit fallback
`(parseInt(...) || 1) / 100 · 2π` when no root subject is found. -/
noncomputable def orbitBaseAngle (nodes : List (NodeDatum ℝ)) (links : List LinkDatum)
    (n : NodeDatum ℝ) : ℝ :=
  match getRootSubjectId (parentMapOf links) n.id with
  | some rootId => (subjectAngle nodes rootId).getD 0
  | none => (parseIdNum n.id : ℝ) / 100 * Real.pi * 2

/-- One node's update in `runOrbitLayout`: weight-driven radius factor
`1 - (masteryScore ?? 50) / 105`, jittered sector angle (`r` is the
`Math.random()` draw, scaled 0.4 for questions and 0.2 otherwise), then a 5%
seek toward the target, returning the new kinetic entry and the node's
`|vx| + |vy|` energy contribution. -/
noncomputable def orbitNodeStep (nodes : List (NodeDatum ℝ)) (links : List LinkDatum)
    (dims : Dims ℝ) (n : NodeDatum ℝ) (pos : NodePos ℝ) (r : ℝ) : NodePos ℝ × ℝ :=
  let mastery := n.masteryScore.getD 50
  let radiusFactor := 1 - mastery / 105
  let baseAngle := orbitBaseAngle nodes links n
  let angle := baseAngle +
    (if n.type = "question" then (r - 1 / 2) * (2 / 5) else (r - 1 / 2) * (1 / 5))
  let tgt := orbitTarget dims angle radiusFactor
  let vx := (tgt.1 - pos.x) * (1 / 20)
  let vy := (tgt.2 - pos.y) * (1 / 20)
  ({ x := pos.x + vx, y := pos.y + vy, vx := vx, vy := vy }, jsAbs vx + jsAbs vy)

/-- The `nodes.forEach` loop of `runOrbitLayout`: nodes without a kinetic entry
and the dragged node are skipped (and consume no random draw); `i` indexes the
next `Math.random()` draw. -/
noncomputable def runOrbitGo (nodes : List (NodeDatum ℝ)) (links : List LinkDatum)
    (dims : Dims ℝ) (dragged : Option String) (rand : ℕ → ℝ) :
    List (NodeDatum ℝ) → Store ℝ → ℝ → ℕ → Store ℝ × ℝ
  | [], store, energy, _ => (store, energy)
  | n :: rest, store, energy, i =>
    match lookupId store n.id with
    | none => runOrbitGo nodes links dims dragged rand rest store energy i
    | some pos =>
      if dragged = some n.id then runOrbitGo nodes links dims dragged rand rest store energy i
      else
        let res := orbitNodeStep nodes links dims n pos (rand i)
        runOrbitGo nodes links dims dragged rand rest (updateStore store n.id res.1)
          (energy + res.2) (i + 1)

/-- One orbit tick (`runOrbitLayout`): seek every node toward its jittered
sector target and return the new store with the tick's aggregate motion. -/
noncomputable def runOrbitLayout (nodes : List (NodeDatum ℝ)) (links : List LinkDatum)
    (dims : Dims ℝ) (dragged : Option String) (store : Store ℝ) (rand : ℕ → ℝ) :
    Store ℝ × ℝ :=
  runOrbitGo nodes links dims dragged rand nodes store 0 0

/-- Squared distance of a point from the viewport center — the "radial
distance" the orbit claims speak about, squared to stay in field arithmetic. -/
noncomputable def distSqFromCenter (dims : Dims ℝ) (pt : ℝ × ℝ) : ℝ :=
  (pt.1 - dims.width / 2) ^ 2 + (pt.2 - dims.height / 2) ^ 2

theorem distSq_orbitTarget (dims : Dims ℝ) (angle f : ℝ) :
    distSqFromCenter dims (orbitTarget dims angle f) =
      ((Real.cos angle) ^ 2 * (dims.width / 2 * (9 / 10)) ^ 2 +
        (Real.sin angle) ^ 2 * (dims.height / 2 * (9 / 10)) ^ 2) * f ^ 2 := by
  simp only [distSqFromCenter, orbitTarget]
  ring

theorem runOrbitGo_congr (nodes : List (NodeDatum ℝ)) (links : List LinkDatum)
    (dims : Dims ℝ) (dragged : Option String) :
    ∀ (ns : List (NodeDatum ℝ)) (store : Store ℝ) (e : ℝ) (r1 r2 : ℕ → ℝ) (i : ℕ),
      (∀ j, i ≤ j → j < i + ns.length → r1 j = r2 j) →
      runOrbitGo nodes links dims dragged r1 ns store e i =
        runOrbitGo nodes links dims dragged r2 ns store e i := by
  intro ns
  induction ns with
  | nil => intro store e r1 r2 i h; rfl
  | cons n rest ih =>
    intro store e r1 r2 i h
    rw [runOrbitGo, runOrbitGo]
    cases lookupId store n.id with
    | none =>
      exact ih store e r1 r2 i (fun j h1 h2 => h j h1 (by simp only [List.length_cons]; omega))
    | some pos =>
      dsimp only
      by_cases hdr : dragged = some n.id
      · rw [if_pos hdr, if_pos hdr]
        exact ih store e r1 r2 i
          (fun j h1 h2 => h j h1 (by simp only [List.length_cons]; omega))
      · rw [if_neg hdr, if_neg hdr,
          h i le_rfl (by simp only [List.length_cons]; omega)]
        exact ih _ _ r1 r2 (i + 1)
          (fun j h1 h2 => h j (by omega) (by simp only [List.length_cons]; omega))

/-- C3 amended: one orbit tick is a pure function of the node set, links,
stored positions, viewport, drag state and the `Math.random()` draws it
consumes — two runs from identical inputs whose jitter draws agree produce
identical stores and energy. -/
theorem orbitTick_pure_in_draws (nodes : List (NodeDatum ℝ)) (links : List LinkDatum)
    (dims : Dims ℝ) (dragged : Option String) (store : Store ℝ) (r1 r2 : ℕ → ℝ)
    (h : ∀ j, j < nodes.length → r1 j = r2 j) :
    runOrbitLayout nodes links dims dragged store r1 =
      runOrbitLayout nodes links dims dragged store r2 :=
  runOrbitGo_congr nodes links dims dragged nodes store 0 r1 r2 0
    (fun j _ h2 => h j (by omega))

/-- Witness for the amended C3: two streams that agree on the single consumed
draw produce the same tick result even though they differ elsewhere. -/
theorem orbitTick_pure_in_draws_witness :
    runOrbitLayout [⟨"subject-a", 14, none, "subject"⟩] [] ⟨200, 200⟩ none
        [("subject-a", ⟨100, 100, 0, 0⟩)] (fun _ => 1 / 2) =
      runOrbitLayout [⟨"subject-a", 14, none, "subject"⟩] [] ⟨200, 200⟩ none
        [("subject-a", ⟨100, 100, 0, 0⟩)] (fun j => if j = 0 then 1 / 2 else 9 / 10) :=
  orbitTick_pure_in_draws [⟨"subject-a", 14, none, "subject"⟩] [] ⟨200, 200⟩ none
    [("subject-a", ⟨100, 100, 0, 0⟩)] (fun _ => 1 / 2)
    (fun j => if j = 0 then 1 / 2 else 9 / 10)
    (by
      intro j hj
      have hj0 : j = 0 := by simpa using hj
      subst hj0
      norm_num)

/-- C3 counterexample: the tick is not a function of the claim's input list
alone.  With one subject node at the viewport center, the draw stream
`1/2` leaves its y-coordinate at 100, while the stream `3/4` jitters the
angle to `1/20` and moves it strictly upward: identical nodes, links,
positions, velocities, viewport and drag state, different new positions. -/
theorem orbitTick_differs_on_draws :
    (lookupId (runOrbitLayout [⟨"subject-a", 14, none, "subject"⟩] [] ⟨200, 200⟩ none
        [("subject-a", ⟨100, 100, 0, 0⟩)] (fun _ => 1 / 2)).1 "subject-a").map
      (fun p => p.y) ≠
    (lookupId (runOrbitLayout [⟨"subject-a", 14, none, "subject"⟩] [] ⟨200, 200⟩ none
        [("subject-a", ⟨100, 100, 0, 0⟩)] (fun _ => 3 / 4)).1 "subject-a").map
      (fun p => p.y) := by
  have hroot : getRootSubjectId (parentMapOf []) "subject-a" = some "subject-a" := rfl
  have hne : (("subject" : String) = "question") = False := eq_false (by decide)
  have hsin : 0 < Real.sin ((3 / 4 - 1 / 2) * (1 / 5) : ℝ) := by
    apply Real.sin_pos_of_pos_of_lt_pi
    · norm_num
    · calc ((3 / 4 - 1 / 2) * (1 / 5) : ℝ) < 3 := by norm_num
        _ < Real.pi := Real.pi_gt_three
  simp only [runOrbitLayout, runOrbitGo, lookupId, orbitNodeStep, orbitBaseAngle, hroot,
    subjectAngle, subjectSlotGo, orbitTarget, updateStore, List.filter, List.map,
    List.length_cons, List.length_nil, hne, if_false, if_true, Option.getD_some,
    Option.map_some]
  norm_num [Real.sin_zero]
  intro h
  nlinarith [hsin, h]

/-- C5 amended: the radius factor `1 - weight/105` is strictly decreasing in the
weight, and at any fixed angle (equal jitter draws) the lower-weight node's
orbit target lies strictly farther from the viewport center; in particular
`radius(weight 0) > radius(weight 100)` at equal angles. -/
theorem orbit_radius_monotone (dims : Dims ℝ) (hw : 0 < dims.width)
    (hh : 0 < dims.height) (w1 w2 angle : ℝ) (h12 : w1 < w2) (h105 : w2 ≤ 105) :
    (1 - w2 / 105) < (1 - w1 / 105) ∧
    distSqFromCenter dims (orbitTarget dims angle (1 - w2 / 105)) <
      distSqFromCenter dims (orbitTarget dims angle (1 - w1 / 105)) := by
  have hf : (1 - w2 / 105) < (1 - w1 / 105) := by linarith
  refine ⟨hf, ?_⟩
  rw [distSq_orbitTarget, distSq_orbitTarget]
  have hRx : (0 : ℝ) < dims.width / 2 * (9 / 10) := by nlinarith
  have hRy : (0 : ℝ) < dims.height / 2 * (9 / 10) := by nlinarith
  have hS : 0 < (Real.cos angle) ^ 2 * (dims.width / 2 * (9 / 10)) ^ 2 +
      (Real.sin angle) ^ 2 * (dims.height / 2 * (9 / 10)) ^ 2 := by
    by_cases hc : Real.cos angle = 0
    · have h2 := Real.sin_sq_add_cos_sq angle
      rw [hc] at h2
      have h1 : (Real.sin angle) ^ 2 = 1 := by nlinarith [h2]
      rw [hc, h1]
      nlinarith [pow_pos hRy 2, sq_nonneg (dims.width / 2 * (9 / 10))]
    · have h1 : 0 < (Real.cos angle) ^ 2 :=
        lt_of_le_of_ne (sq_nonneg _) (Ne.symm (pow_ne_zero 2 hc))
      nlinarith [mul_pos h1 (pow_pos hRx 2),
        mul_nonneg (sq_nonneg (Real.sin angle)) (le_of_lt (pow_pos hRy 2))]
  have hf2 : 0 ≤ 1 - w2 / 105 := by linarith
  have hsq : (1 - w2 / 105) ^ 2 < (1 - w1 / 105) ^ 2 := by nlinarith
  exact mul_lt_mul_of_pos_left hsq hS

/-- Witness for C5: at an equal angle on a 200×200 viewport, the weight-0 target
sits strictly farther out than the weight-100 target. -/
theorem orbit_radius_monotone_witness :
    ((1 : ℝ) - 100 / 105) < (1 - 0 / 105) ∧
    distSqFromCenter ⟨200, 200⟩ (orbitTarget ⟨200, 200⟩ 0 (1 - 100 / 105)) <
      distSqFromCenter ⟨200, 200⟩ (orbitTarget ⟨200, 200⟩ 0 (1 - 0 / 105)) :=
  orbit_radius_monotone ⟨200, 200⟩ (by norm_num) (by norm_num) 0 100 0
    (by norm_num) (by norm_num)

/-- C5 counterexample: two same-sector question nodes (base angle 0) with legal
jitter draws 0.5 and 0.999 on a 200×2000 viewport.  The weight-50 node (angle
0) is placed at squared distance `8100 · (11/21)²`, while the heavier weight-51
node (angle ≈ 0.1996 toward the long axis) lands strictly farther out: the
lower-weight node is NOT farther from center. -/
theorem orbit_lowWeight_not_farther :
    distSqFromCenter ⟨200, 2000⟩
        (orbitTarget ⟨200, 2000⟩ (0 + (1 / 2 - 1 / 2) * (2 / 5)) (1 - 50 / 105)) <
      distSqFromCenter ⟨200, 2000⟩
        (orbitTarget ⟨200, 2000⟩ (0 + (999 / 1000 - 1 / 2) * (2 / 5)) (1 - 51 / 105)) := by
  rw [distSq_orbitTarget, distSq_orbitTarget]
  have h0 : (0 + (1 / 2 - 1 / 2) * (2 / 5) : ℝ) = 0 := by norm_num
  have hj : (0 + (999 / 1000 - 1 / 2) * (2 / 5) : ℝ) = 499 / 2500 := by norm_num
  rw [h0, hj, Real.cos_zero, Real.sin_zero]
  have hsin : (19 / 100 : ℝ) < Real.sin (499 / 2500) := by
    have h1 : (499 / 2500 : ℝ) - (499 / 2500) ^ 3 / 4 < Real.sin (499 / 2500) :=
      Real.sin_gt_sub_cube (by norm_num) (by norm_num)
    nlinarith [h1]
  nlinarith [hsin, sq_nonneg (Real.cos (499 / 2500 : ℝ))]

end ECGraph
